import Mathlib

/-
Verification of the poker table engine (server.js).

The engine is a per-table state machine: join/leave/disconnect handlers,
a player_action handler (fold, check, call, bet, raise), and the internal
transition functions startNewHand, moveToNextPlayer, advancePhase, endHand
plus the deferred post-hand reset (the setTimeout body in endHand).

Randomness (card dealing, showdown winner choice) is threaded through an
explicit Oracle argument; JavaScript integer arithmetic is modelled with Int.
External collaborators (Supabase ledger writes, socket broadcasts, the
username lookup) are omitted: they never touch the table state, except that
the username becomes a parameter of join.
-/

namespace Poker

abbrev Card := String
abbrev PlayerId := String

inductive Phase
  | waiting
  | preflop
  | flop
  | turn
  | river
  | showdown
deriving DecidableEq

structure Player where
  id : PlayerId
  name : String
  chips : Int
  position : Nat
  cards : Option (Card × Card)
  bet : Int
  folded : Bool
  isDealer : Bool
  isSmallBlind : Bool
  isBigBlind : Bool
  isTurn : Bool
deriving DecidableEq

structure WinnerRec where
  playerId : PlayerId
  hand : String
  amount : Int
deriving DecidableEq

structure GameState where
  tableId : String
  players : List Player
  communityCards : List Card
  pot : Int
  currentBet : Int
  phase : Phase
  dealerIndex : Nat
  currentPlayerIndex : Nat
  turnTimer : Int
  winner : Option WinnerRec
deriving DecidableEq

/-- Oracle for the nondeterministic choices of one engine call: hole cards
dealt per seat, the community cards, and the showdown winner pick
(Math.floor(Math.random() * n), modelled as pick taken modulo n). -/
structure Oracle where
  deal : Nat → Card × Card
  flop1 : Card
  flop2 : Card
  flop3 : Card
  turnCard : Card
  riverCard : Card
  pick : Nat

/-- getTableState: the state a table is created with on first reference. -/
def initialTable (tid : String) : GameState :=
  { tableId := tid, players := [], communityCards := [], pot := 0, currentBet := 0,
    phase := .waiting, dealerIndex := 0, currentPlayerIndex := 0, turnTimer := 30,
    winner := none }

/-- Update the element at one index of a list, leaving others alone
(JavaScript in-place mutation of players[i]). -/
def updNth (f : Player → Player) : List Player → Nat → List Player
  | [], _ => []
  | p :: ps, 0 => f p :: ps
  | p :: ps, n + 1 => p :: updNth f ps n

/-- Map with the element index (players.forEach((p, i) => ...)), starting
the count at k. -/
def mapWithIdx (f : Nat → Player → Player) : List Player → Nat → List Player
  | [], _ => []
  | p :: ps, k => f k p :: mapWithIdx f ps (k + 1)

def sumChips (ps : List Player) : Int :=
  (ps.map Player.chips).sum

def turnCount (ps : List Player) : Nat :=
  (ps.filter Player.isTurn).length

/-- state.players.filter((p) => !p.folded) -/
def activeFilter (ps : List Player) : List Player :=
  ps.filter (fun p => !p.folded)

/-- winner.chips += state.pot, where winner is (a reference to) the first
player in the list with the given id. -/
def creditFirst : List Player → PlayerId → Int → List Player
  | [], _, _ => []
  | p :: ps, uid, amt =>
    if p.id == uid then { p with chips := p.chips + amt } :: ps
    else p :: creditFirst ps uid amt

/-- endHand: credit the pot to the winner and record the transient winner
announcement.  The pot field itself is NOT reset here; the deferred
postHandReset (or the next startNewHand) overwrites it later. -/
def endHand (s : GameState) (winnerId : PlayerId) : GameState :=
  { s with players := creditFirst s.players winnerId s.pot,
           winner := some { playerId := winnerId, hand := "Winner!", amount := s.pot } }

/-- The bounded circular scan for the next non-folded seat:
while (players[idx].folded && attempts < players.length) idx = (idx+1) % len. -/
def scanNonFolded (ps : List Player) : Nat → Nat → Nat
  | idx, 0 => idx
  | idx, fuel + 1 =>
    if ((ps.get? idx).map Player.folded).getD false then
      scanNonFolded ps ((idx + 1) % ps.length) fuel
    else idx

/-- The tail of advancePhase: first non-folded seat strictly after the
dealer gets the turn (JavaScript findIndex yields -1 when no dealer flag is
set, so the scan then starts at index 0). -/
def assignFirstToAct (s : GameState) : GameState :=
  if (activeFilter s.players).length = 0 then s
  else
    let start := match s.players.findIdx? Player.isDealer with
      | some d => (d + 1) % s.players.length
      | none => 0
    let fta := scanNonFolded s.players start s.players.length
    { s with players := updNth (fun p => { p with isTurn := true }) s.players fta,
             currentPlayerIndex := fta }

/-- Reset every bet and the table bet level for a new betting round. -/
def resetBets (s : GameState) : GameState :=
  { s with players := s.players.map (fun p => { p with bet := 0 }), currentBet := 0 }

def advancePhase (o : Oracle) (s0 : GameState) : GameState :=
  let s := resetBets s0
  match s.phase with
  | .preflop =>
    assignFirstToAct { s with phase := .flop,
                              communityCards := [o.flop1, o.flop2, o.flop3] }
  | .flop =>
    assignFirstToAct { s with phase := .turn,
                              communityCards := s.communityCards ++ [o.turnCard] }
  | .turn =>
    assignFirstToAct { s with phase := .river,
                              communityCards := s.communityCards ++ [o.riverCard] }
  | .river =>
    let s1 := { s with phase := Phase.showdown }
    let actives := activeFilter s1.players
    match actives.get? (o.pick % actives.length) with
    | some w => endHand s1 w.id
    | none => s1
  | .waiting => assignFirstToAct s
  | .showdown => assignFirstToAct s

def moveToNextPlayer (o : Oracle) (s : GameState) : GameState :=
  let actives := activeFilter s.players
  if actives.length = 1 then
    match actives.head? with
    | some w => endHand s w.id
    | none => s
  else if actives.length = 0 then s
  else
    let nextIndex := scanNonFolded s.players
      ((s.currentPlayerIndex + 1) % s.players.length) s.players.length
    let bettingComplete := actives.all (fun p => p.bet == s.currentBet || p.chips == 0)
    if bettingComplete && decide (nextIndex ≤ s.currentPlayerIndex) then
      advancePhase o s
    else
      { s with players := updNth (fun p => { p with isTurn := true }) s.players nextIndex,
               currentPlayerIndex := nextIndex }

inductive Action
  | fold
  | check
  | call
  | bet
  | raise
  | other (tag : String)
deriving DecidableEq

inductive ActionError
  | notYourTurn
  | illegalCheck
deriving DecidableEq

/-- const betAmount = amount || state.currentBet * 2.  A supplied amount of
0 is falsy in JavaScript, so it falls back to currentBet * 2 too. -/
def betTarget (currentBet : Int) (amount : Option Int) : Int :=
  match amount with
  | some a => if a = 0 then currentBet * 2 else a
  | none => currentBet * 2

/-- The switch (action) block of the player_action handler.  none encodes
the early return of the illegal-check branch. -/
def applySwitch (s : GameState) (i : Nat) (player : Player) (act : Action)
    (amount : Option Int) : Option GameState :=
  match act with
  | .fold =>
    some { s with players := updNth (fun p => { p with folded := true }) s.players i }
  | .check =>
    if s.currentBet > player.bet then none else some s
  | .call =>
    let callAmount := s.currentBet - player.bet
    some { s with
      players := updNth (fun p => { p with chips := p.chips - callAmount,
                                           bet := s.currentBet }) s.players i,
      pot := s.pot + callAmount }
  | .bet | .raise =>
    let totalBet := betTarget s.currentBet amount
    let toAdd := totalBet - player.bet
    some { s with
      players := updNth (fun p => { p with chips := p.chips - toAdd,
                                           bet := totalBet }) s.players i,
      currentBet := totalBet,
      pot := s.pot + toAdd }
  | .other _ => some s

/-- player.isTurn = false just before moveToNextPlayer. -/
def clearTurn (s : GameState) (i : Nat) : GameState :=
  { s with players := updNth (fun p => { p with isTurn := false }) s.players i }

/-- The player_action socket handler.  Returns the new table state and the
error (if any) emitted to the acting connection. -/
def playerAction (o : Oracle) (s : GameState) (uid : PlayerId) (act : Action)
    (amount : Option Int) : GameState × Option ActionError :=
  match s.players.findIdx? (fun p => p.id == uid) with
  | none => (s, none)
  | some i =>
    match s.players.get? i with
    | none => (s, none)
    | some player =>
      if !player.isTurn then (s, some .notYourTurn)
      else
        match applySwitch s i player act amount with
        | none => (s, some .illegalCheck)
        | some s1 => (moveToNextPlayer o (clearTurn s1 i), none)

/-- Small-blind seat: in heads-up play the dealer, otherwise the seat
after the dealer. -/
def sbIndexOf (n dealerIdx : Nat) : Nat :=
  if n = 2 then dealerIdx else (dealerIdx + 1) % n

/-- Big-blind seat: the seat after the small blind. -/
def bbIndexOf (n dealerIdx : Nat) : Nat :=
  if n = 2 then (dealerIdx + 1) % n else (dealerIdx + 2) % n

/-- First to act preflop: the dealer/small blind in heads-up play,
otherwise the seat after the big blind. -/
def firstToActOf (n dealerIdx : Nat) : Nat :=
  if n = 2 then sbIndexOf n dealerIdx else (bbIndexOf n dealerIdx + 1) % n

/-- The per-player reset loop of startNewHand: deal hole cards, clear the
bet and fold state, and recompute the role flags. -/
def handSetup (o : Oracle) (dealerIdx sbIndex bbIndex : Nat) (ps : List Player) :
    List Player :=
  mapWithIdx (fun i p =>
    { p with cards := some (o.deal i), bet := 0, folded := false,
             isDealer := i == dealerIdx, isSmallBlind := i == sbIndex,
             isBigBlind := i == bbIndex, isTurn := false }) ps 0

def startNewHand (o : Oracle) (s0 : GameState) : GameState :=
  if s0.players.length < 2 then s0
  else
    let numPlayers := s0.players.length
    let dealerIdx := s0.dealerIndex % numPlayers
    let sbIndex := sbIndexOf numPlayers dealerIdx
    let bbIndex := bbIndexOf numPlayers dealerIdx
    let ps1 := handSetup o dealerIdx sbIndex bbIndex s0.players
    let ps2 := updNth (fun p => { p with chips := p.chips - 5, bet := 5 }) ps1 sbIndex
    let ps3 := updNth (fun p => { p with chips := p.chips - 10, bet := 10 }) ps2 bbIndex
    let firstToAct := firstToActOf numPlayers dealerIdx
    let ps4 := updNth (fun p => { p with isTurn := true }) ps3 firstToAct
    { s0 with players := ps4, dealerIndex := dealerIdx, pot := 15, currentBet := 10,
              communityCards := [], phase := .preflop, currentPlayerIndex := firstToAct }

/-- position = smallest non-negative integer not taken (the while loop in
the join handler; among n taken positions a free one exists below n + 1,
so n + 1 steps of fuel reproduce the unbounded loop). -/
def freePosFrom (taken : List Nat) : Nat → Nat → Nat
  | p, 0 => p
  | p, fuel + 1 => if taken.contains p then freePosFrom taken (p + 1) fuel else p

/-- The Player record the join handler constructs for a new player. -/
def freshPlayer (s : GameState) (uid name : String) : Player :=
  { id := uid, name := name, chips := 1000,
    position := freePosFrom (s.players.map Player.position) 0 (s.players.length + 1),
    cards := none, bet := 0, folded := false, isDealer := s.players.isEmpty,
    isSmallBlind := false, isBigBlind := false, isTurn := false }

/-- The join_table handler: reconnection is a state no-op, a full table
(8 seats) rejects, otherwise seat the player and auto-start a hand when at
least 2 players sit at a waiting table. -/
def joinTable (o : Oracle) (s : GameState) (uid name : String) : GameState :=
  if s.players.any (fun p => p.id == uid) then s
  else if 8 ≤ s.players.length then s
  else
    let s1 := { s with players := s.players ++ [freshPlayer s uid name] }
    if 2 ≤ s1.players.length ∧ s1.phase = .waiting then startNewHand o s1 else s1

/-- The tail of removePlayerFromTable: splice the player out, clamp
currentPlayerIndex, and reset the table to waiting when fewer than 2
players remain. -/
def finishRemoval (s : GameState) (uid : PlayerId) : GameState :=
  let s1 := match s.players.findIdx? (fun p => p.id == uid) with
    | some j => { s with players := s.players.eraseIdx j }
    | none => s
  let s2 := if s1.players.length ≤ s1.currentPlayerIndex then
              { s1 with currentPlayerIndex := 0 }
            else s1
  if s2.players.length < 2 then
    { s2 with phase := .waiting, communityCards := [], pot := 0, currentBet := 0,
              players := s2.players.map (fun p =>
                { p with isTurn := false, folded := false, bet := 0, cards := none,
                         isDealer := false, isSmallBlind := false, isBigBlind := false }) }
  else s2

/-- player.isTurn = false; player.folded = true — the leaver is marked
folded so turn-advancement logic skips them. -/
def forceFold (s : GameState) (i : Nat) : GameState :=
  { s with players := updNth (fun p => { p with isTurn := false, folded := true }) s.players i }

/-- removePlayerFromTable (leave_table and disconnect).  When the leaver
held the turn and at least 2 players are seated, they are force-folded; if
exactly one active player then remains the hand ends at once and the
function returns early, otherwise the turn advances before removal. -/
def removePlayerFromTable (o : Oracle) (s : GameState) (uid : PlayerId) : GameState :=
  match s.players.findIdx? (fun p => p.id == uid) with
  | none => s
  | some playerIndex =>
    match s.players.get? playerIndex with
    | none => s
    | some player =>
      if player.isTurn ∧ 1 < s.players.length then
        let s1 := forceFold s playerIndex
        let actives : List Player := s1.players.filter (fun p => !p.folded && !(p.id == uid))
        if actives.length = 1 then
          let s2 := { s1 with players := s1.players.eraseIdx playerIndex }
          match actives.head? with
          | some w => endHand s2 w.id
          | none => s2
        else
          finishRemoval (moveToNextPlayer o s1) uid
      else
        finishRemoval s uid

/-- The setTimeout body scheduled by endHand: clear the winner banner,
rotate the dealer button, and either start the next hand or fall back to
waiting.  (With an empty player list JavaScript would make dealerIndex NaN;
Nat.mod then keeps the old value, a divergence no claim exercises since the
dealer index of an empty table is unobservable until players rejoin.) -/
def postHandReset (o : Oracle) (s : GameState) : GameState :=
  let s1 := { s with winner := none,
                     dealerIndex := (s.dealerIndex + 1) % s.players.length }
  if 2 ≤ s1.players.length then startNewHand o s1 else { s1 with phase := .waiting }

/-- One player_action event with its oracle. -/
structure ActEv where
  uid : PlayerId
  act : Action
  amount : Option Int
  orc : Oracle

/-- The external events the dispatcher can deliver to one table. -/
inductive Ev
  | join (uid name : String) (o : Oracle)
  | leave (uid : PlayerId) (o : Oracle)
  | act (e : ActEv)
  | timer (o : Oracle)

def stepEv (s : GameState) : Ev → GameState
  | .join uid name o => joinTable o s uid name
  | .leave uid o => removePlayerFromTable o s uid
  | .act e => (playerAction e.orc s e.uid e.act e.amount).1
  | .timer o => postHandReset o s

/-- Table states reachable from a fresh table through engine events. -/
inductive Reachable : GameState → Prop
  | start (tid : String) : Reachable (initialTable tid)
  | step {s : GameState} (e : Ev) : Reachable s → Reachable (stepEv s e)

/-- Fold a list of player_action events over the state. -/
def applyActs (s : GameState) : List ActEv → GameState
  | [] => s
  | e :: es => applyActs (playerAction e.orc s e.uid e.act e.amount).1 es

/-- No settlement happened strictly before any event of the trace: the
winner banner is still unset when each action is processed. -/
def winnerFreeRun (s : GameState) : List ActEv → Prop
  | [] => True
  | e :: es => s.winner = none ∧
      winnerFreeRun (playerAction e.orc s e.uid e.act e.amount).1 es

/-! ### Basic lemmas about the list helpers -/

theorem updNth_nil (f : Player → Player) (i : Nat) : updNth f [] i = [] := rfl

theorem length_updNth (f : Player → Player) (ps : List Player) (i : Nat) :
    (updNth f ps i).length = ps.length := by
  induction ps generalizing i with
  | nil => rfl
  | cons p ps ih =>
    cases i with
    | zero => rfl
    | succ n => simp [updNth, ih]

theorem get?_updNth_self (f : Player → Player) (ps : List Player) (i : Nat) :
    (updNth f ps i).get? i = (ps.get? i).map f := by
  induction ps generalizing i with
  | nil => rfl
  | cons p ps ih =>
    cases i with
    | zero => rfl
    | succ n => simpa [updNth] using ih n

theorem get?_updNth_ne (f : Player → Player) (ps : List Player) {i j : Nat}
    (h : j ≠ i) : (updNth f ps i).get? j = ps.get? j := by
  induction ps generalizing i j with
  | nil => rfl
  | cons p ps ih =>
    cases i with
    | zero =>
      cases j with
      | zero => exact absurd rfl h
      | succ m => rfl
    | succ n =>
      cases j with
      | zero => rfl
      | succ m => simpa [updNth] using ih (fun hm => h (by omega))

theorem length_mapWithIdx (f : Nat → Player → Player) (ps : List Player) (k : Nat) :
    (mapWithIdx f ps k).length = ps.length := by
  induction ps generalizing k with
  | nil => rfl
  | cons p ps ih => simp [mapWithIdx, ih]

theorem get?_mapWithIdx (f : Nat → Player → Player) (ps : List Player) (k i : Nat) :
    (mapWithIdx f ps k).get? i = (ps.get? i).map (f (k + i)) := by
  induction ps generalizing k i with
  | nil => rfl
  | cons p ps ih =>
    cases i with
    | zero => rfl
    | succ m =>
      have := ih (k + 1) m
      simpa [mapWithIdx, Nat.add_assoc, Nat.add_comm 1 m] using this

theorem length_creditFirst (ps : List Player) (uid : PlayerId) (amt : Int) :
    (creditFirst ps uid amt).length = ps.length := by
  induction ps with
  | nil => rfl
  | cons p ps ih =>
    by_cases h : p.id == uid <;> simp [creditFirst, h, ih]

/-! ### turnCount lemmas -/

theorem turnCount_nil : turnCount [] = 0 := rfl

theorem turnCount_cons (p : Player) (ps : List Player) :
    turnCount (p :: ps) = (if p.isTurn then 1 else 0) + turnCount ps := by
  by_cases h : p.isTurn <;> simp [turnCount, List.filter_cons, h, Nat.add_comm]

theorem turnCount_eq_zero_iff (ps : List Player) :
    turnCount ps = 0 ↔ ∀ p ∈ ps, p.isTurn = false := by
  induction ps with
  | nil => simp [turnCount_nil]
  | cons p ps ih =>
    rw [turnCount_cons]
    by_cases h : p.isTurn <;> simp [h, ih]

theorem turnCount_updNth_of (f : Player → Player)
    (hf : ∀ p, (f p).isTurn = p.isTurn) (ps : List Player) (i : Nat) :
    turnCount (updNth f ps i) = turnCount ps := by
  induction ps generalizing i with
  | nil => rfl
  | cons p ps ih =>
    cases i with
    | zero => simp [updNth, turnCount_cons, hf]
    | succ n => simp [updNth, turnCount_cons, ih]

theorem turnCount_updNth_le (f : Player → Player) (ps : List Player) (i : Nat) :
    turnCount (updNth f ps i) ≤ turnCount ps + 1 := by
  induction ps generalizing i with
  | nil => simp [updNth_nil]
  | cons p ps ih =>
    cases i with
    | zero =>
      simp only [updNth, turnCount_cons]
      split <;> split <;> omega
    | succ n =>
      simp only [updNth, turnCount_cons]
      have := ih n
      omega

theorem turnCount_updNth_false (f : Player → Player)
    (hf : ∀ p, (f p).isTurn = false) (ps : List Player) {i : Nat} {q : Player}
    (h : ps.get? i = some q) (hq : q.isTurn = true) :
    turnCount (updNth f ps i) + 1 = turnCount ps := by
  induction ps generalizing i with
  | nil => simp at h
  | cons p ps ih =>
    cases i with
    | zero =>
      simp only [List.get?] at h
      cases h
      simp [updNth, turnCount_cons, hf, hq]
      omega
    | succ n =>
      simp only [List.get?] at h
      simp only [updNth, turnCount_cons]
      have h2 := ih h
      by_cases hp : p.isTurn <;> simp [hp] <;> omega

theorem turnCount_updNth_false_le (f : Player → Player)
    (hf : ∀ p, (f p).isTurn = false) (ps : List Player) (i : Nat) :
    turnCount (updNth f ps i) ≤ turnCount ps := by
  induction ps generalizing i with
  | nil => simp [updNth_nil]
  | cons p ps ih =>
    cases i with
    | zero =>
      simp only [updNth, turnCount_cons, hf]
      by_cases hp : p.isTurn <;> simp [hp]
    | succ n =>
      simp only [updNth, turnCount_cons]
      have h2 := ih n
      by_cases hp : p.isTurn <;> simp [hp] <;> omega

theorem turnCount_pos {ps : List Player} {i : Nat} {q : Player}
    (h : ps.get? i = some q) (hq : q.isTurn = true) : 1 ≤ turnCount ps := by
  have := turnCount_updNth_false (fun p => { p with isTurn := false })
    (fun _ => rfl) ps h hq
  omega

theorem turnCount_map_of (f : Player → Player)
    (hf : ∀ p, (f p).isTurn = p.isTurn) (ps : List Player) :
    turnCount (ps.map f) = turnCount ps := by
  induction ps with
  | nil => rfl
  | cons p ps ih => simp [turnCount_cons, hf, ih]

theorem turnCount_map_false (f : Player → Player)
    (hf : ∀ p, (f p).isTurn = false) (ps : List Player) :
    turnCount (ps.map f) = 0 := by
  induction ps with
  | nil => rfl
  | cons p ps ih => simp [turnCount_cons, hf, ih]

theorem turnCount_mapWithIdx_false (f : Nat → Player → Player)
    (hf : ∀ i p, (f i p).isTurn = false) (ps : List Player) (k : Nat) :
    turnCount (mapWithIdx f ps k) = 0 := by
  induction ps generalizing k with
  | nil => rfl
  | cons p ps ih => simp [mapWithIdx, turnCount_cons, hf, ih]

theorem turnCount_append (ps qs : List Player) :
    turnCount (ps ++ qs) = turnCount ps + turnCount qs := by
  simp [turnCount, List.filter_append]

theorem turnCount_eraseIdx_le (ps : List Player) (j : Nat) :
    turnCount (ps.eraseIdx j) ≤ turnCount ps := by
  induction ps generalizing j with
  | nil => simp [List.eraseIdx]
  | cons p ps ih =>
    cases j with
    | zero =>
      simp only [List.eraseIdx, turnCount_cons]
      split <;> omega
    | succ n =>
      simp only [List.eraseIdx, turnCount_cons]
      have := ih n
      omega

theorem turnCount_creditFirst (ps : List Player) (uid : PlayerId) (amt : Int) :
    turnCount (creditFirst ps uid amt) = turnCount ps := by
  induction ps with
  | nil => rfl
  | cons p ps ih =>
    by_cases h : p.id == uid <;> simp [creditFirst, h, turnCount_cons, ih]

/-! ### sumChips lemmas -/

theorem sumChips_nil : sumChips [] = 0 := rfl

theorem sumChips_cons (p : Player) (ps : List Player) :
    sumChips (p :: ps) = p.chips + sumChips ps := by
  simp [sumChips]

theorem sumChips_updNth_delta (f : Player → Player) (d : Int)
    (hf : ∀ p, (f p).chips = p.chips + d) (ps : List Player) {i : Nat}
    (h : i < ps.length) : sumChips (updNth f ps i) = sumChips ps + d := by
  induction ps generalizing i with
  | nil => simp at h
  | cons p ps ih =>
    cases i with
    | zero =>
      simp [updNth, sumChips_cons, hf]
      ring
    | succ n =>
      simp only [updNth, sumChips_cons]
      rw [ih (by simpa using h)]
      ring

theorem sumChips_updNth_of (f : Player → Player)
    (hf : ∀ p, (f p).chips = p.chips) (ps : List Player) (i : Nat) :
    sumChips (updNth f ps i) = sumChips ps := by
  induction ps generalizing i with
  | nil => rfl
  | cons p ps ih =>
    cases i with
    | zero => simp [updNth, sumChips_cons, hf]
    | succ n => simp [updNth, sumChips_cons, ih]

theorem sumChips_map_of (f : Player → Player)
    (hf : ∀ p, (f p).chips = p.chips) (ps : List Player) :
    sumChips (ps.map f) = sumChips ps := by
  induction ps with
  | nil => rfl
  | cons p ps ih => simp [sumChips_cons, hf, ih]

theorem sumChips_mapWithIdx_of (f : Nat → Player → Player)
    (hf : ∀ i p, (f i p).chips = p.chips) (ps : List Player) (k : Nat) :
    sumChips (mapWithIdx f ps k) = sumChips ps := by
  induction ps generalizing k with
  | nil => rfl
  | cons p ps ih => simp [mapWithIdx, sumChips_cons, hf, ih]

theorem sumChips_creditFirst {ps : List Player} {uid : PlayerId}
    (h : ∃ p ∈ ps, p.id = uid) (amt : Int) :
    sumChips (creditFirst ps uid amt) = sumChips ps + amt := by
  induction ps with
  | nil => simp at h
  | cons p ps ih =>
    by_cases hp : p.id == uid
    · simp [creditFirst, hp, sumChips_cons]
      ring
    · have hne : p.id ≠ uid := by simpa using hp
      obtain ⟨q, hq, hq2⟩ := h
      rcases List.mem_cons.mp hq with rfl | hmem
      · exact absurd hq2 hne
      · rw [creditFirst, if_neg hp, sumChips_cons, sumChips_cons, ih ⟨q, hmem, hq2⟩]
        ring

theorem head?_mem {ps : List Player} {p : Player} (h : ps.head? = some p) :
    p ∈ ps := by
  cases ps with
  | nil => simp at h
  | cons q qs =>
    simp only [List.head?] at h
    cases h
    exact List.mem_cons_self _ _

theorem updNth_id (ps : List Player) (i : Nat) :
    updNth (fun p => p) ps i = ps := by
  induction ps generalizing i with
  | nil => rfl
  | cons p ps ih =>
    cases i with
    | zero => rfl
    | succ n => simp [updNth, ih]

theorem lt_length_of_get?_eq_some {ps : List Player} {i : Nat} {q : Player}
    (h : ps.get? i = some q) : i < ps.length := by
  induction ps generalizing i with
  | nil => simp at h
  | cons p ps ih =>
    cases i with
    | zero => simp
    | succ n =>
      simp only [List.get?] at h
      simpa using ih h

/-! ### Projection facts for the transition functions -/

theorem endHand_phase (s : GameState) (uid : PlayerId) :
    (endHand s uid).phase = s.phase := rfl

theorem endHand_pot (s : GameState) (uid : PlayerId) :
    (endHand s uid).pot = s.pot := rfl

theorem endHand_winner (s : GameState) (uid : PlayerId) :
    (endHand s uid).winner = some { playerId := uid, hand := "Winner!", amount := s.pot } := rfl

theorem endHand_length (s : GameState) (uid : PlayerId) :
    (endHand s uid).players.length = s.players.length :=
  length_creditFirst _ _ _

theorem endHand_turnCount (s : GameState) (uid : PlayerId) :
    turnCount (endHand s uid).players = turnCount s.players :=
  turnCount_creditFirst _ _ _

theorem endHand_sumChips {s : GameState} {uid : PlayerId}
    (h : ∃ p ∈ s.players, p.id = uid) :
    sumChips (endHand s uid).players = sumChips s.players + s.pot :=
  sumChips_creditFirst h _

theorem resetBets_phase (s : GameState) : (resetBets s).phase = s.phase := rfl

theorem resetBets_pot (s : GameState) : (resetBets s).pot = s.pot := rfl

theorem resetBets_winner (s : GameState) : (resetBets s).winner = s.winner := rfl

theorem resetBets_length (s : GameState) :
    (resetBets s).players.length = s.players.length := by
  simp [resetBets]

theorem resetBets_turnCount (s : GameState) :
    turnCount (resetBets s).players = turnCount s.players :=
  turnCount_map_of (fun p => { p with bet := 0 }) (fun _ => rfl) _

theorem resetBets_sumChips (s : GameState) :
    sumChips (resetBets s).players = sumChips s.players :=
  sumChips_map_of (fun p => { p with bet := 0 }) (fun _ => rfl) _

theorem assignFirstToAct_phase (s : GameState) :
    (assignFirstToAct s).phase = s.phase := by
  unfold assignFirstToAct
  split <;> rfl

theorem assignFirstToAct_pot (s : GameState) :
    (assignFirstToAct s).pot = s.pot := by
  unfold assignFirstToAct
  split <;> rfl

theorem assignFirstToAct_winner (s : GameState) :
    (assignFirstToAct s).winner = s.winner := by
  unfold assignFirstToAct
  split <;> rfl

theorem assignFirstToAct_length (s : GameState) :
    (assignFirstToAct s).players.length = s.players.length := by
  unfold assignFirstToAct
  split
  · rfl
  · simp [length_updNth]

theorem assignFirstToAct_turnCount (s : GameState) :
    turnCount (assignFirstToAct s).players ≤ turnCount s.players + 1 := by
  unfold assignFirstToAct
  split
  · omega
  · simpa using turnCount_updNth_le _ s.players _

theorem assignFirstToAct_sumChips (s : GameState) :
    sumChips (assignFirstToAct s).players = sumChips s.players := by
  unfold assignFirstToAct
  split
  · rfl
  · simpa using sumChips_updNth_of (fun p => { p with isTurn := true }) (fun _ => rfl) s.players _

/-! ### The shape of the action switch -/

theorem applySwitch_some {s : GameState} {i : Nat} {player : Player} {act : Action}
    {amount : Option Int} {s1 : GameState}
    (h : applySwitch s i player act amount = some s1) :
    s1.phase = s.phase ∧ s1.winner = s.winner ∧
    ∃ g : Player → Player, (∀ p, (g p).isTurn = p.isTurn) ∧
      s1.players = updNth g s.players i := by
  cases act with
  | fold =>
    cases h
    exact ⟨rfl, rfl, fun p => { p with folded := true }, fun _ => rfl, rfl⟩
  | check =>
    by_cases hc : s.currentBet > player.bet
    · simp [applySwitch, hc] at h
    · simp only [applySwitch, if_neg hc, Option.some.injEq] at h
      subst h
      exact ⟨rfl, rfl, fun p => p, fun _ => rfl, (updNth_id _ _).symm⟩
  | call =>
    cases h
    exact ⟨rfl, rfl,
      fun p => { p with chips := p.chips - (s.currentBet - player.bet), bet := s.currentBet },
      fun _ => rfl, rfl⟩
  | bet =>
    cases h
    exact ⟨rfl, rfl,
      fun p => { p with chips := p.chips - (betTarget s.currentBet amount - player.bet),
                        bet := betTarget s.currentBet amount },
      fun _ => rfl, rfl⟩
  | raise =>
    cases h
    exact ⟨rfl, rfl,
      fun p => { p with chips := p.chips - (betTarget s.currentBet amount - player.bet),
                        bet := betTarget s.currentBet amount },
      fun _ => rfl, rfl⟩
  | other tag =>
    cases h
    exact ⟨rfl, rfl, fun p => p, fun _ => rfl, (updNth_id _ _).symm⟩

theorem applySwitch_money {s : GameState} {i : Nat} {player : Player} {act : Action}
    {amount : Option Int} {s1 : GameState}
    (hg : s.players.get? i = some player)
    (h : applySwitch s i player act amount = some s1) :
    s1.pot + sumChips s1.players = s.pot + sumChips s.players := by
  have hlt : i < s.players.length := lt_length_of_get?_eq_some hg
  cases act with
  | fold =>
    cases h
    simp only
    rw [sumChips_updNth_of (fun p => { p with folded := true }) (fun _ => rfl)]
  | check =>
    by_cases hc : s.currentBet > player.bet
    · simp [applySwitch, hc] at h
    · simp only [applySwitch, if_neg hc, Option.some.injEq] at h
      subst h
      rfl
  | call =>
    cases h
    simp only
    rw [sumChips_updNth_delta
      (fun p => { p with chips := p.chips - (s.currentBet - player.bet), bet := s.currentBet })
      (-(s.currentBet - player.bet)) (fun p => by simp [sub_eq_add_neg]) _ hlt]
    ring
  | bet =>
    cases h
    simp only
    rw [sumChips_updNth_delta
      (fun p => { p with chips := p.chips - (betTarget s.currentBet amount - player.bet),
                         bet := betTarget s.currentBet amount })
      (-(betTarget s.currentBet amount - player.bet))
      (fun p => by simp [sub_eq_add_neg]) _ hlt]
    ring
  | raise =>
    cases h
    simp only
    rw [sumChips_updNth_delta
      (fun p => { p with chips := p.chips - (betTarget s.currentBet amount - player.bet),
                         bet := betTarget s.currentBet amount })
      (-(betTarget s.currentBet amount - player.bet))
      (fun p => by simp [sub_eq_add_neg]) _ hlt]
    ring
  | other tag =>
    cases h
    rfl

theorem clearTurn_phase (s : GameState) (i : Nat) :
    (clearTurn s i).phase = s.phase := rfl

theorem clearTurn_winner (s : GameState) (i : Nat) :
    (clearTurn s i).winner = s.winner := rfl

theorem clearTurn_pot (s : GameState) (i : Nat) :
    (clearTurn s i).pot = s.pot := rfl

theorem clearTurn_sumChips (s : GameState) (i : Nat) :
    sumChips (clearTurn s i).players = sumChips s.players :=
  sumChips_updNth_of (fun p => { p with isTurn := false }) (fun _ => rfl) _ _

/-! ### The turn invariant -/

/-- The inductive invariant behind claim C8: at most one player holds the
turn; none does in the waiting and showdown phases; and none does at a
table with fewer than two seats filled. -/
def TableInv (s : GameState) : Prop :=
  turnCount s.players ≤ 1 ∧
  ((s.phase = Phase.waiting ∨ s.phase = Phase.showdown) → turnCount s.players = 0) ∧
  (s.players.length < 2 → turnCount s.players = 0)

theorem tableInv_of_noTurn {s : GameState} (h : turnCount s.players = 0) :
    TableInv s :=
  ⟨by omega, fun _ => h, fun _ => h⟩

theorem activeFilter_length_le (ps : List Player) :
    (activeFilter ps).length ≤ ps.length :=
  List.length_filter_le _ _

theorem assignFirstToAct_inv {t : GameState} (h0 : turnCount t.players = 0)
    (hw : t.phase ≠ Phase.waiting) (hs : t.phase ≠ Phase.showdown)
    (hlen : 2 ≤ t.players.length) : TableInv (assignFirstToAct t) := by
  refine ⟨?_, ?_, ?_⟩
  · have := assignFirstToAct_turnCount t
    omega
  · intro hcase
    rw [assignFirstToAct_phase] at hcase
    rcases hcase with h | h
    · exact absurd h hw
    · exact absurd h hs
  · intro hlt
    rw [assignFirstToAct_length] at hlt
    omega

theorem advancePhase_inv (o : Oracle) (s : GameState)
    (h0 : turnCount s.players = 0)
    (hw : s.phase ≠ Phase.waiting) (hs : s.phase ≠ Phase.showdown)
    (hlen : 2 ≤ s.players.length) : TableInv (advancePhase o s) := by
  rcases hph : s.phase with _ | _ | _ | _ | _ | _
  · exact absurd hph hw
  · simp only [advancePhase, resetBets_phase, hph]
    exact assignFirstToAct_inv
      (by simpa [resetBets_turnCount] using h0) (by simp) (by simp)
      (by simpa [resetBets_length] using hlen)
  · simp only [advancePhase, resetBets_phase, hph]
    exact assignFirstToAct_inv
      (by simpa [resetBets_turnCount] using h0) (by simp) (by simp)
      (by simpa [resetBets_length] using hlen)
  · simp only [advancePhase, resetBets_phase, hph]
    exact assignFirstToAct_inv
      (by simpa [resetBets_turnCount] using h0) (by simp) (by simp)
      (by simpa [resetBets_length] using hlen)
  · simp only [advancePhase, resetBets_phase, hph]
    rcases hg : (activeFilter (resetBets s).players).get?
        (o.pick % (activeFilter (resetBets s).players).length) with _ | w
    · simp only [hg]
      exact tableInv_of_noTurn (by simpa [resetBets_turnCount] using h0)
    · simp only [hg]
      exact tableInv_of_noTurn
        (by simpa [endHand_turnCount, resetBets_turnCount] using h0)
  · exact absurd hph hs

theorem moveToNextPlayer_inv (o : Oracle) (s : GameState)
    (h0 : turnCount s.players = 0)
    (hw : s.phase ≠ Phase.waiting) (hs : s.phase ≠ Phase.showdown) :
    TableInv (moveToNextPlayer o s) := by
  by_cases h1 : (activeFilter s.players).length = 1
  · rcases hh : (activeFilter s.players).head? with _ | w
    · simp only [moveToNextPlayer, h1, if_true, hh]
      exact tableInv_of_noTurn h0
    · simp only [moveToNextPlayer, h1, if_true, hh]
      exact tableInv_of_noTurn (by simpa [endHand_turnCount] using h0)
  · by_cases h2 : (activeFilter s.players).length = 0
    · simp only [moveToNextPlayer, h1, h2, if_false, if_true]
      exact tableInv_of_noTurn h0
    · have hlen : 2 ≤ s.players.length := by
        have h3 : 2 ≤ (activeFilter s.players).length := by omega
        have h4 := activeFilter_length_le s.players
        omega
      by_cases h3 : ((activeFilter s.players).all
          (fun p => p.bet == s.currentBet || p.chips == 0) &&
          decide (scanNonFolded s.players
            ((s.currentPlayerIndex + 1) % s.players.length) s.players.length
            ≤ s.currentPlayerIndex)) = true
      · have hred : moveToNextPlayer o s = advancePhase o s := by
          simp [moveToNextPlayer, h1, h2, h3]
        rw [hred]
        exact advancePhase_inv o s h0 hw hs hlen
      · have hred : moveToNextPlayer o s =
            { s with
              players := updNth (fun p => { p with isTurn := true }) s.players (scanNonFolded s.players ((s.currentPlayerIndex + 1) % s.players.length) s.players.length),
              currentPlayerIndex := scanNonFolded s.players ((s.currentPlayerIndex + 1) % s.players.length) s.players.length } := by
          simp [moveToNextPlayer, h1, h2, h3]
        rw [hred]
        unfold TableInv
        dsimp only
        refine ⟨?_, ?_, ?_⟩
        · have := turnCount_updNth_le (fun p => { p with isTurn := true }) s.players
            (scanNonFolded s.players
              ((s.currentPlayerIndex + 1) % s.players.length) s.players.length)
          omega
        · intro hcase
          rcases hcase with h | h
          · exact absurd h hw
          · exact absurd h hs
        · intro hlt
          rw [length_updNth] at hlt
          omega

/-! ### startNewHand facts -/

theorem turnCount_handSetup (o : Oracle) (a b c : Nat) (ps : List Player) :
    turnCount (handSetup o a b c ps) = 0 :=
  turnCount_mapWithIdx_false (fun i p =>
    { p with cards := some (o.deal i), bet := 0, folded := false,
             isDealer := i == a, isSmallBlind := i == b,
             isBigBlind := i == c, isTurn := false }) (fun _ _ => rfl) ps 0

theorem sumChips_handSetup (o : Oracle) (a b c : Nat) (ps : List Player) :
    sumChips (handSetup o a b c ps) = sumChips ps :=
  sumChips_mapWithIdx_of (fun i p =>
    { p with cards := some (o.deal i), bet := 0, folded := false,
             isDealer := i == a, isSmallBlind := i == b,
             isBigBlind := i == c, isTurn := false }) (fun _ _ => rfl) ps 0

theorem length_handSetup (o : Oracle) (a b c : Nat) (ps : List Player) :
    (handSetup o a b c ps).length = ps.length :=
  length_mapWithIdx _ ps 0

theorem get?_handSetup (o : Oracle) (a b c : Nat) (ps : List Player) (i : Nat) :
    (handSetup o a b c ps).get? i = (ps.get? i).map (fun p =>
      { p with cards := some (o.deal i), bet := 0, folded := false,
               isDealer := i == a, isSmallBlind := i == b,
               isBigBlind := i == c, isTurn := false }) := by
  simpa using get?_mapWithIdx _ ps 0 i

theorem sbIndexOf_lt {n : Nat} (d : Nat) (hn : 0 < n) (hd : d < n) :
    sbIndexOf n d < n := by
  unfold sbIndexOf
  split
  · exact hd
  · exact Nat.mod_lt _ hn

theorem bbIndexOf_lt {n : Nat} (d : Nat) (hn : 0 < n) :
    bbIndexOf n d < n := by
  unfold bbIndexOf
  split <;> exact Nat.mod_lt _ hn

theorem startNewHand_of_small {o : Oracle} {s : GameState}
    (h : s.players.length < 2) : startNewHand o s = s := by
  unfold startNewHand
  rw [if_pos h]

theorem startNewHand_winner (o : Oracle) (s : GameState) :
    (startNewHand o s).winner = s.winner := by
  unfold startNewHand
  split <;> rfl

theorem startNewHand_length (o : Oracle) (s : GameState) :
    (startNewHand o s).players.length = s.players.length := by
  unfold startNewHand
  split
  · rfl
  · simp [length_updNth, length_handSetup]

theorem startNewHand_phase {o : Oracle} {s : GameState}
    (h2 : 2 ≤ s.players.length) : (startNewHand o s).phase = Phase.preflop := by
  unfold startNewHand
  rw [if_neg (by omega)]

theorem startNewHand_pot {o : Oracle} {s : GameState}
    (h2 : 2 ≤ s.players.length) : (startNewHand o s).pot = 15 := by
  unfold startNewHand
  rw [if_neg (by omega)]

theorem startNewHand_turnCount_le (o : Oracle) (s : GameState) :
    turnCount (startNewHand o s).players ≤ max (turnCount s.players) 1 := by
  unfold startNewHand
  split
  · exact le_max_left _ _
  · dsimp only
    refine le_trans ?_ (le_max_right _ 1)
    have h4 := turnCount_updNth_le (fun p => { p with isTurn := true })
      (updNth (fun p => { p with chips := p.chips - 10, bet := 10 })
        (updNth (fun p => { p with chips := p.chips - 5, bet := 5 })
          (handSetup o (s.dealerIndex % s.players.length)
            (sbIndexOf s.players.length (s.dealerIndex % s.players.length))
            (bbIndexOf s.players.length (s.dealerIndex % s.players.length)) s.players)
          (sbIndexOf s.players.length (s.dealerIndex % s.players.length)))
        (bbIndexOf s.players.length (s.dealerIndex % s.players.length)))
      (firstToActOf s.players.length (s.dealerIndex % s.players.length))
    rw [turnCount_updNth_of (fun p => { p with chips := p.chips - 10, bet := 10 })
      (fun _ => rfl), turnCount_updNth_of (fun p => { p with chips := p.chips - 5, bet := 5 })
      (fun _ => rfl), turnCount_handSetup] at h4
    omega

theorem startNewHand_inv (o : Oracle) (s : GameState)
    (h2 : 2 ≤ s.players.length) : TableInv (startNewHand o s) := by
  refine ⟨?_, ?_, ?_⟩
  · have h3 := startNewHand_turnCount_le o s
    have h4 : turnCount (startNewHand o s).players ≤ max (turnCount s.players) 1 := h3
    -- only the freshly assigned turn can remain: bound it directly
    unfold startNewHand at h4 ⊢
    rw [if_neg (by omega)] at h4 ⊢
    dsimp only at h4 ⊢
    have h5 := turnCount_updNth_le (fun p => { p with isTurn := true })
      (updNth (fun p => { p with chips := p.chips - 10, bet := 10 })
        (updNth (fun p => { p with chips := p.chips - 5, bet := 5 })
          (handSetup o (s.dealerIndex % s.players.length)
            (sbIndexOf s.players.length (s.dealerIndex % s.players.length))
            (bbIndexOf s.players.length (s.dealerIndex % s.players.length)) s.players)
          (sbIndexOf s.players.length (s.dealerIndex % s.players.length)))
        (bbIndexOf s.players.length (s.dealerIndex % s.players.length)))
      (firstToActOf s.players.length (s.dealerIndex % s.players.length))
    rw [turnCount_updNth_of (fun p => { p with chips := p.chips - 10, bet := 10 })
      (fun _ => rfl), turnCount_updNth_of (fun p => { p with chips := p.chips - 5, bet := 5 })
      (fun _ => rfl), turnCount_handSetup] at h5
    omega
  · intro hcase
    rw [startNewHand_phase h2] at hcase
    rcases hcase with h | h <;> cases h
  · intro hlt
    rw [startNewHand_length] at hlt
    omega

theorem startNewHand_money (o : Oracle) (s : GameState)
    (h2 : 2 ≤ s.players.length) :
    (startNewHand o s).pot + sumChips (startNewHand o s).players
      = sumChips s.players := by
  have hn : 0 < s.players.length := by omega
  have hd : s.dealerIndex % s.players.length < s.players.length := Nat.mod_lt _ hn
  have hsb : sbIndexOf s.players.length (s.dealerIndex % s.players.length)
      < s.players.length := sbIndexOf_lt _ hn hd
  have hbb : bbIndexOf s.players.length (s.dealerIndex % s.players.length)
      < s.players.length := bbIndexOf_lt _ hn
  unfold startNewHand
  rw [if_neg (by omega)]
  dsimp only
  rw [sumChips_updNth_of (fun p => { p with isTurn := true }) (fun _ => rfl)]
  rw [sumChips_updNth_delta (fun p => { p with chips := p.chips - 10, bet := 10 })
    (-10) (fun p => by simp [sub_eq_add_neg]) _
    (by rw [length_updNth, length_handSetup]; exact hbb)]
  rw [sumChips_updNth_delta (fun p => { p with chips := p.chips - 5, bet := 5 })
    (-5) (fun p => by simp [sub_eq_add_neg]) _
    (by rw [length_handSetup]; exact hsb)]
  rw [sumChips_handSetup]
  ring

/-! ### Money conservation through one step -/

/-- Relation between a pre-state and a post-state of one engine step during
a hand: if no settlement happened the escrowed pot plus all stacks is
unchanged; if the step settled, the recorded win equals the pot and the
stacks absorbed the escrow. -/
def MoneyStep (s r : GameState) : Prop :=
  (r.winner = none → r.pot + sumChips r.players = s.pot + sumChips s.players) ∧
  (∀ w, r.winner = some w → w.amount = r.pot ∧
    sumChips r.players = s.pot + sumChips s.players)

theorem moneyStep_refl_of_none {s : GameState} (hw : s.winner = none) :
    MoneyStep s s :=
  ⟨fun _ => rfl, fun w h => by rw [hw] at h; cases h⟩

theorem endHand_moneyStep {s : GameState} {uid : PlayerId}
    (hmem : ∃ p ∈ s.players, p.id = uid) :
    MoneyStep s (endHand s uid) := by
  constructor
  · intro h
    rw [endHand_winner] at h
    cases h
  · intro w h
    rw [endHand_winner] at h
    cases h
    refine ⟨rfl, ?_⟩
    rw [endHand_sumChips hmem]
    ring

theorem advancePhase_money (o : Oracle) (s : GameState) (hw : s.winner = none) :
    MoneyStep s (advancePhase o s) := by
  rcases hph : s.phase with _ | _ | _ | _ | _ | _
  case river =>
    simp only [advancePhase, resetBets_phase, hph]
    rcases hg : (activeFilter (resetBets s).players).get?
        (o.pick % (activeFilter (resetBets s).players).length) with _ | w
    · simp only [hg]
      constructor
      · intro _
        show (resetBets s).pot + sumChips (resetBets s).players
          = s.pot + sumChips s.players
        rw [resetBets_pot, resetBets_sumChips]
      · intro w h
        have h2 : s.winner = some w := h
        rw [hw] at h2
        cases h2
    · simp only [hg]
      constructor
      · intro h
        rw [endHand_winner] at h
        cases h
      · intro w2 h
        rw [endHand_winner] at h
        cases h
        refine ⟨rfl, ?_⟩
        have hmem : ∃ p ∈ (resetBets s).players, p.id = w.id :=
          ⟨w, List.mem_of_mem_filter (List.get?_mem hg), rfl⟩
        show sumChips (creditFirst (resetBets s).players w.id s.pot)
          = s.pot + sumChips s.players
        rw [sumChips_creditFirst hmem, resetBets_sumChips]
        ring
  all_goals
    simp only [advancePhase, resetBets_phase, hph]
    constructor
    · intro _
      rw [assignFirstToAct_pot, assignFirstToAct_sumChips]
      show (resetBets s).pot + sumChips (resetBets s).players
        = s.pot + sumChips s.players
      rw [resetBets_pot, resetBets_sumChips]
    · intro w h
      rw [assignFirstToAct_winner] at h
      have h2 : s.winner = some w := h
      rw [hw] at h2
      cases h2

theorem moveToNextPlayer_money (o : Oracle) (s : GameState) (hw : s.winner = none) :
    MoneyStep s (moveToNextPlayer o s) := by
  by_cases h1 : (activeFilter s.players).length = 1
  · rcases hh : (activeFilter s.players).head? with _ | w
    · simp only [moveToNextPlayer, h1, if_true, hh]
      exact moneyStep_refl_of_none hw
    · simp only [moveToNextPlayer, h1, if_true, hh]
      exact endHand_moneyStep ⟨w, List.mem_of_mem_filter (head?_mem hh), rfl⟩
  · by_cases h2 : (activeFilter s.players).length = 0
    · simp only [moveToNextPlayer, h1, h2, if_false, if_true]
      exact moneyStep_refl_of_none hw
    · by_cases h3 : ((activeFilter s.players).all
          (fun p => p.bet == s.currentBet || p.chips == 0) &&
          decide (scanNonFolded s.players
            ((s.currentPlayerIndex + 1) % s.players.length) s.players.length
            ≤ s.currentPlayerIndex)) = true
      · have hred : moveToNextPlayer o s = advancePhase o s := by
          simp [moveToNextPlayer, h1, h2, h3]
        rw [hred]
        exact advancePhase_money o s hw
      · have hred : moveToNextPlayer o s =
            { s with
              players := updNth (fun p => { p with isTurn := true }) s.players (scanNonFolded s.players ((s.currentPlayerIndex + 1) % s.players.length) s.players.length),
              currentPlayerIndex := scanNonFolded s.players ((s.currentPlayerIndex + 1) % s.players.length) s.players.length } := by
          simp [moveToNextPlayer, h1, h2, h3]
        rw [hred]
        constructor
        · intro _
          dsimp only
          rw [sumChips_updNth_of (fun p => { p with isTurn := true }) (fun _ => rfl)]
        · intro w h
          rw [show ({ s with
              players := updNth (fun p => { p with isTurn := true }) s.players (scanNonFolded s.players ((s.currentPlayerIndex + 1) % s.players.length) s.players.length),
              currentPlayerIndex := scanNonFolded s.players ((s.currentPlayerIndex + 1) % s.players.length) s.players.length } : GameState).winner = s.winner from rfl, hw] at h
          cases h

theorem playerAction_money (o : Oracle) (s : GameState) (uid : PlayerId)
    (act : Action) (amount : Option Int) (hw : s.winner = none) :
    MoneyStep s (playerAction o s uid act amount).1 := by
  rcases hfi : s.players.findIdx? (fun p => p.id == uid) with _ | i
  · simp only [playerAction, hfi]
    exact moneyStep_refl_of_none hw
  · rcases hg : s.players.get? i with _ | player
    · simp only [playerAction, hfi, hg]
      exact moneyStep_refl_of_none hw
    · by_cases ht : player.isTurn
      · rcases happ : applySwitch s i player act amount with _ | s1
        · simp only [playerAction, hfi, hg, ht, Bool.not_true, Bool.false_eq_true,
            if_false, happ]
          exact moneyStep_refl_of_none hw
        · simp only [playerAction, hfi, hg, ht, Bool.not_true, Bool.false_eq_true,
            if_false, happ]
          obtain ⟨hphase, hwin, g, hg1, hg2⟩ := applySwitch_some happ
          have hmoney1 := applySwitch_money hg happ
          have hw1 : (clearTurn s1 i).winner = none := by
            rw [clearTurn_winner, hwin, hw]
          have hmoney2 : (clearTurn s1 i).pot + sumChips (clearTurn s1 i).players
              = s.pot + sumChips s.players := by
            rw [clearTurn_pot, clearTurn_sumChips]
            exact hmoney1
          have hstep := moveToNextPlayer_money o (clearTurn s1 i) hw1
          constructor
          · intro h
            rw [hstep.1 h, hmoney2]
          · intro w h
            obtain ⟨ha, hb⟩ := hstep.2 w h
            exact ⟨ha, by rw [hb, hmoney2]⟩
      · have ht2 : player.isTurn = false := by simpa using ht
        simp only [playerAction, hfi, hg, ht2, Bool.not_false, if_true]
        exact moneyStep_refl_of_none hw

theorem playerAction_inv (o : Oracle) (s : GameState) (uid : PlayerId)
    (act : Action) (amount : Option Int) (hInv : TableInv s) :
    TableInv (playerAction o s uid act amount).1 := by
  obtain ⟨hle, hzero, hlen⟩ := hInv
  rcases hfi : s.players.findIdx? (fun p => p.id == uid) with _ | i
  · simp only [playerAction, hfi]
    exact ⟨hle, hzero, hlen⟩
  · rcases hg : s.players.get? i with _ | player
    · simp only [playerAction, hfi, hg]
      exact ⟨hle, hzero, hlen⟩
    · by_cases ht : player.isTurn
      · have htpos : 1 ≤ turnCount s.players := turnCount_pos hg ht
        have hphw : s.phase ≠ Phase.waiting := by
          intro h
          have := hzero (Or.inl h)
          omega
        have hphs : s.phase ≠ Phase.showdown := by
          intro h
          have := hzero (Or.inr h)
          omega
        rcases happ : applySwitch s i player act amount with _ | s1
        · simp only [playerAction, hfi, hg, ht, Bool.not_true, Bool.false_eq_true,
            if_false, happ]
          exact ⟨hle, hzero, hlen⟩
        · simp only [playerAction, hfi, hg, ht, Bool.not_true, Bool.false_eq_true,
            if_false, happ]
          obtain ⟨hphase, hwin, g, hg1, hg2⟩ := applySwitch_some happ
          have hc1 : turnCount s1.players = turnCount s.players := by
            rw [hg2]
            exact turnCount_updNth_of g hg1 _ _
          have hgi : s1.players.get? i = some (g player) := by
            rw [hg2, get?_updNth_self, hg]
            rfl
          have hgiT : (g player).isTurn = true := by rw [hg1]; exact ht
          have hclear : turnCount (clearTurn s1 i).players + 1 = turnCount s1.players :=
            turnCount_updNth_false (fun p => { p with isTurn := false })
              (fun _ => rfl) s1.players hgi hgiT
          have h0 : turnCount (clearTurn s1 i).players = 0 := by omega
          have hph1 : (clearTurn s1 i).phase = s.phase := by
            rw [clearTurn_phase, hphase]
          exact moveToNextPlayer_inv o _ h0
            (by rw [hph1]; exact hphw) (by rw [hph1]; exact hphs)
      · have ht2 : player.isTurn = false := by simpa using ht
        simp only [playerAction, hfi, hg, ht2, Bool.not_false, if_true]
        exact ⟨hle, hzero, hlen⟩

/-! ### Money conservation along an action trace -/

theorem applyActs_money (evs : List ActEv) : ∀ (s : GameState) (M : Int),
    s.winner = none → s.pot + sumChips s.players = M → winnerFreeRun s evs →
    ((applyActs s evs).winner = none →
      (applyActs s evs).pot + sumChips (applyActs s evs).players = M) ∧
    (∀ w, (applyActs s evs).winner = some w →
      w.amount = (applyActs s evs).pot ∧ sumChips (applyActs s evs).players = M) := by
  induction evs with
  | nil =>
    intro s M hw hM _
    refine ⟨fun _ => hM, fun w h => ?_⟩
    rw [show applyActs s [] = s from rfl, hw] at h
    cases h
  | cons e es ih =>
    intro s M hw hM hrun
    obtain ⟨hw0, hrun2⟩ := hrun
    have hstep := playerAction_money e.orc s e.uid e.act e.amount hw
    rcases hw1 : (playerAction e.orc s e.uid e.act e.amount).1.winner with _ | w1
    · have hM1 : (playerAction e.orc s e.uid e.act e.amount).1.pot
          + sumChips (playerAction e.orc s e.uid e.act e.amount).1.players = M := by
        rw [hstep.1 hw1]
        exact hM
      have hres := ih (playerAction e.orc s e.uid e.act e.amount).1 M hw1 hM1 hrun2
      simpa [applyActs] using hres
    · cases es with
      | nil =>
        obtain ⟨ha, hb⟩ := hstep.2 w1 hw1
        constructor
        · intro h
          rw [show applyActs s [e]
            = (playerAction e.orc s e.uid e.act e.amount).1 from rfl, hw1] at h
          cases h
        · intro w h
          rw [show applyActs s [e]
            = (playerAction e.orc s e.uid e.act e.amount).1 from rfl, hw1] at h
          cases h
          refine ⟨ha, ?_⟩
          show sumChips (playerAction e.orc s e.uid e.act e.amount).1.players = M
          rw [hb]
          exact hM
      | cons e2 es2 =>
        obtain ⟨hw2, _⟩ := hrun2
        rw [hw1] at hw2
        cases hw2

/-! ### Invariant preservation for the player-lifecycle operations -/

theorem finishWaitingCheck_inv (u : GameState) (hle : turnCount u.players ≤ 1)
    (hzero : (u.phase = Phase.waiting ∨ u.phase = Phase.showdown) → turnCount u.players = 0) :
    TableInv (if u.players.length < 2 then
      { u with phase := Phase.waiting, communityCards := [], pot := 0, currentBet := 0,
               players := u.players.map (fun p =>
                 { p with isTurn := false, folded := false, bet := 0, cards := none,
                          isDealer := false, isSmallBlind := false, isBigBlind := false }) }
      else u) := by
  split
  · apply tableInv_of_noTurn
    apply turnCount_map_false
    intro p
    rfl
  · next h => exact ⟨hle, hzero, fun hl => absurd hl h⟩

theorem finishRemoval_inv (t : GameState) (uid : PlayerId)
    (hle : turnCount t.players ≤ 1)
    (hzero : (t.phase = Phase.waiting ∨ t.phase = Phase.showdown) → turnCount t.players = 0) :
    TableInv (finishRemoval t uid) := by
  unfold finishRemoval
  rcases hfi : t.players.findIdx? (fun p => p.id == uid) with _ | j
  · simp only [hfi]
    apply finishWaitingCheck_inv
    · split <;> exact hle
    · split <;> exact hzero
  · simp only [hfi]
    apply finishWaitingCheck_inv
    · split
      · show turnCount (t.players.eraseIdx j) ≤ 1
        exact le_trans (turnCount_eraseIdx_le _ _) hle
      · show turnCount (t.players.eraseIdx j) ≤ 1
        exact le_trans (turnCount_eraseIdx_le _ _) hle
    · split
      · intro hc
        show turnCount (t.players.eraseIdx j) = 0
        have h1 := hzero hc
        have h2 := turnCount_eraseIdx_le t.players j
        omega
      · intro hc
        show turnCount (t.players.eraseIdx j) = 0
        have h1 := hzero hc
        have h2 := turnCount_eraseIdx_le t.players j
        omega

theorem forceFold_phase (s : GameState) (i : Nat) :
    (forceFold s i).phase = s.phase := rfl

theorem forceFold_length (s : GameState) (i : Nat) :
    (forceFold s i).players.length = s.players.length :=
  length_updNth _ _ _

theorem removePlayerFromTable_inv (o : Oracle) (s : GameState) (uid : PlayerId)
    (hInv : TableInv s) : TableInv (removePlayerFromTable o s uid) := by
  obtain ⟨hle, hzero, hlen⟩ := hInv
  rcases hfi : s.players.findIdx? (fun p => p.id == uid) with _ | j
  · simp only [removePlayerFromTable, hfi]
    exact ⟨hle, hzero, hlen⟩
  · rcases hg : s.players.get? j with _ | player
    · simp only [removePlayerFromTable, hfi, hg]
      exact ⟨hle, hzero, hlen⟩
    · by_cases hcond : player.isTurn = true ∧ 1 < s.players.length
      · have ht : player.isTurn = true := hcond.1
        have hlen2 : 1 < s.players.length := hcond.2
        have htpos : 1 ≤ turnCount s.players := turnCount_pos hg ht
        have hphw : s.phase ≠ Phase.waiting := by
          intro h
          have := hzero (Or.inl h)
          omega
        have hphs : s.phase ≠ Phase.showdown := by
          intro h
          have := hzero (Or.inr h)
          omega
        have hcc : turnCount (forceFold s j).players + 1 = turnCount s.players :=
          turnCount_updNth_false (fun p => { p with isTurn := false, folded := true })
            (fun _ => rfl) s.players hg ht
        have h0 : turnCount (forceFold s j).players = 0 := by omega
        by_cases h1 : ((forceFold s j).players.filter
            (fun p => !p.folded && !(p.id == uid))).length = 1
        · rcases hh : ((forceFold s j).players.filter
              (fun p => !p.folded && !(p.id == uid))).head? with _ | w
          · simp only [removePlayerFromTable, hfi, hg, if_pos hcond, h1,
              if_true, hh]
            apply tableInv_of_noTurn
            show turnCount ((forceFold s j).players.eraseIdx j) = 0
            have h2 := turnCount_eraseIdx_le (forceFold s j).players j
            omega
          · simp only [removePlayerFromTable, hfi, hg, if_pos hcond, h1,
              if_true, hh]
            apply tableInv_of_noTurn
            rw [endHand_turnCount]
            show turnCount ((forceFold s j).players.eraseIdx j) = 0
            have h2 := turnCount_eraseIdx_le (forceFold s j).players j
            omega
        · simp only [removePlayerFromTable, hfi, hg, if_pos hcond, h1,
            if_false]
          have hmInv := moveToNextPlayer_inv o (forceFold s j) h0
            (by rw [forceFold_phase]; exact hphw)
            (by rw [forceFold_phase]; exact hphs)
          exact finishRemoval_inv _ _ hmInv.1 hmInv.2.1
      · simp only [removePlayerFromTable, hfi, hg, if_neg hcond]
        exact finishRemoval_inv _ _ hle hzero

theorem joinTable_inv (o : Oracle) (s : GameState) (uid name : String)
    (hInv : TableInv s) : TableInv (joinTable o s uid name) := by
  obtain ⟨hle, hzero, hlen⟩ := hInv
  by_cases hex : s.players.any (fun p => p.id == uid)
  · simp only [joinTable, hex, if_true]
    exact ⟨hle, hzero, hlen⟩
  · by_cases hfull : 8 ≤ s.players.length
    · have hex2 : (s.players.any (fun p => p.id == uid)) = false := by simpa using hex
      simp only [joinTable, hex2, Bool.false_eq_true, if_false, if_pos hfull]
      exact ⟨hle, hzero, hlen⟩
    · have hex2 : (s.players.any (fun p => p.id == uid)) = false := by simpa using hex
      simp only [joinTable, hex2, Bool.false_eq_true, if_false, if_neg hfull]
      have hcnt : turnCount (s.players ++ [freshPlayer s uid name]) = turnCount s.players := by
        rw [turnCount_append]
        simp [turnCount_cons, turnCount_nil, freshPlayer]
      split
      · next hcond =>
        apply startNewHand_inv
        exact hcond.1
      · next hcond =>
        refine ⟨?_, ?_, ?_⟩
        · show turnCount (s.players ++ [freshPlayer s uid name]) ≤ 1
          rw [hcnt]
          exact hle
        · intro hc
          show turnCount (s.players ++ [freshPlayer s uid name]) = 0
          rw [hcnt]
          exact hzero hc
        · intro hl
          show turnCount (s.players ++ [freshPlayer s uid name]) = 0
          rw [hcnt]
          apply hlen
          have hl2 : (s.players ++ [freshPlayer s uid name]).length < 2 := hl
          rw [List.length_append] at hl2
          simp only [List.length_cons, List.length_nil] at hl2
          omega

theorem postHandReset_inv (o : Oracle) (s : GameState) (hInv : TableInv s) :
    TableInv (postHandReset o s) := by
  obtain ⟨hle, hzero, hlen⟩ := hInv
  unfold postHandReset
  dsimp only
  split
  · next hcond =>
    apply startNewHand_inv
    exact hcond
  · next hcond =>
    have h0 : turnCount s.players = 0 := by
      apply hlen
      show s.players.length < 2
      omega
    exact tableInv_of_noTurn h0

/-- Every reachable table state satisfies the turn invariant. -/
theorem reachable_tableInv : ∀ s : GameState, Reachable s → TableInv s := by
  intro s h
  induction h with
  | start tid => exact tableInv_of_noTurn rfl
  | step e hr ih =>
    cases e with
    | join uid name o => exact joinTable_inv o _ uid name ih
    | leave uid o => exact removePlayerFromTable_inv o _ uid ih
    | act ev => exact playerAction_inv ev.orc _ ev.uid ev.act ev.amount ih
    | timer o => exact postHandReset_inv o _ ih

/-! ### Concrete fixtures for witnesses and counterexamples -/

def oDf : Oracle :=
  { deal := fun _ => ("Ah", "Kh"), flop1 := "2c", flop2 := "3c", flop3 := "4c",
    turnCard := "5c", riverCard := "6c", pick := 0 }

/-- A fresh table after two joins: the heads-up hand has auto-started. -/
def tableA : GameState :=
  stepEv (stepEv (initialTable "t") (Ev.join "a" "A" oDf)) (Ev.join "b" "B" oDf)

def tableA_reachable : Reachable tableA :=
  Reachable.step (Ev.join "b" "B" oDf)
    (Reachable.step (Ev.join "a" "A" oDf) (Reachable.start "t"))

/-- The dealer/small blind of tableA after the hand start. -/
def pAafterStart : Player :=
  { id := "a", name := "A", chips := 995, position := 0, cards := some ("Ah", "Kh"),
    bet := 5, folded := false, isDealer := true, isSmallBlind := true,
    isBigBlind := false, isTurn := true }

/-- The big blind of tableA after the hand start. -/
def pBafterStart : Player :=
  { id := "b", name := "B", chips := 990, position := 1, cards := some ("Ah", "Kh"),
    bet := 10, folded := false, isDealer := false, isSmallBlind := false,
    isBigBlind := true, isTurn := false }

/-! ### Claims -/

/-- C7: rejected protocol violations mutate no state.  An action by a
seated player whose isTurn is false fails with NotYourTurn and returns the
table unchanged; a check while currentBet exceeds the player's bet fails
with IllegalCheck, likewise returning the table unchanged (so the turn does
not advance either). -/
theorem c7_rejections :
    (∀ (o : Oracle) (s : GameState) (uid : PlayerId) (act : Action)
       (amount : Option Int) (i : Nat) (player : Player),
       s.players.findIdx? (fun p => p.id == uid) = some i →
       s.players.get? i = some player → player.isTurn = false →
       playerAction o s uid act amount = (s, some ActionError.notYourTurn)) ∧
    (∀ (o : Oracle) (s : GameState) (uid : PlayerId) (amount : Option Int)
       (i : Nat) (player : Player),
       s.players.findIdx? (fun p => p.id == uid) = some i →
       s.players.get? i = some player → player.isTurn = true →
       player.bet < s.currentBet →
       playerAction o s uid Action.check amount = (s, some ActionError.illegalCheck)) := by
  constructor
  · intro o s uid act amount i player hfi hg ht
    simp only [playerAction, hfi, hg, ht, Bool.not_false, if_true]
  · intro o s uid amount i player hfi hg ht hbet
    simp only [playerAction, hfi, hg, ht, Bool.not_true, Bool.false_eq_true, if_false,
      applySwitch, if_pos hbet]

theorem c7_rejections_witness :
    playerAction oDf tableA "b" Action.call none = (tableA, some ActionError.notYourTurn) ∧
    playerAction oDf tableA "a" Action.check none = (tableA, some ActionError.illegalCheck) := by
  constructor
  · exact c7_rejections.1 oDf tableA "b" Action.call none 1 pBafterStart
      (by decide) (by decide) (by decide)
  · exact c7_rejections.2 oDf tableA "a" none 0 pAafterStart
      (by decide) (by decide) (by decide) (by decide)

/-- C9: joining with an already-seated playerId returns the state
unchanged (so players.length is unchanged), and leaving with a playerId
that is not seated is a no-op. -/
theorem c9_idempotence :
    (∀ (o : Oracle) (s : GameState) (uid name : String),
       (∃ p ∈ s.players, p.id = uid) → joinTable o s uid name = s) ∧
    (∀ (o : Oracle) (s : GameState) (uid : PlayerId),
       (∀ p ∈ s.players, p.id ≠ uid) → removePlayerFromTable o s uid = s) := by
  constructor
  · intro o s uid name hmem
    have hany : s.players.any (fun p => p.id == uid) = true := by
      rw [List.any_eq_true]
      obtain ⟨p, hp, he⟩ := hmem
      exact ⟨p, hp, by simpa using he⟩
    simp only [joinTable, hany, if_true]
  · intro o s uid hnone
    have hfi : s.players.findIdx? (fun p => p.id == uid) = none := by
      rw [List.findIdx?_eq_none_iff]
      intro p hp
      simpa using hnone p hp
    simp only [removePlayerFromTable, hfi]

theorem c9_idempotence_witness :
    joinTable oDf tableA "a" "A2" = tableA ∧
    removePlayerFromTable oDf tableA "zz" = tableA := by
  constructor
  · exact c9_idempotence.1 oDf tableA "a" "A2" ⟨pAafterStart, by decide, by decide⟩
  · exact c9_idempotence.2 oDf tableA "zz" (by decide)

/-- C10: an action event with an unknown tag from the player whose turn it
is, is not rejected: the switch leaves the state unchanged (no error is
emitted), yet the actor's isTurn is cleared and moveToNextPlayer runs
exactly as for a legal no-op action, so when checking is legal the result
coincides with a check. -/
theorem c10_unknown_action :
    ∀ (o : Oracle) (s : GameState) (uid : PlayerId) (tag : String)
      (amount : Option Int) (i : Nat) (player : Player),
      s.players.findIdx? (fun p => p.id == uid) = some i →
      s.players.get? i = some player → player.isTurn = true →
      applySwitch s i player (Action.other tag) amount = some s ∧
      playerAction o s uid (Action.other tag) amount
        = (moveToNextPlayer o (clearTurn s i), none) ∧
      (s.currentBet ≤ player.bet →
        playerAction o s uid (Action.other tag) amount
          = playerAction o s uid Action.check amount) := by
  intro o s uid tag amount i player hfi hg ht
  refine ⟨rfl, ?_, ?_⟩
  · simp only [playerAction, hfi, hg, ht, Bool.not_true, Bool.false_eq_true, if_false,
      applySwitch]
  · intro hle
    simp only [playerAction, hfi, hg, ht, Bool.not_true, Bool.false_eq_true, if_false,
      applySwitch, if_neg (not_lt.mpr hle)]

/-- tableA after the small blind calls: the big blind now holds the turn
with bet equal to currentBet, so checking is legal for them. -/
def tableCalled : GameState :=
  stepEv tableA (Ev.act ⟨"a", Action.call, none, oDf⟩)

theorem c10_unknown_action_witness :
    applySwitch tableCalled 1 { pBafterStart with isTurn := true }
        (Action.other "allin") none = some tableCalled ∧
    playerAction oDf tableCalled "b" (Action.other "allin") none
      = (moveToNextPlayer oDf (clearTurn tableCalled 1), none) ∧
    (tableCalled.currentBet ≤ ({ pBafterStart with isTurn := true } : Player).bet →
      playerAction oDf tableCalled "b" (Action.other "allin") none
        = playerAction oDf tableCalled "b" Action.check none) := by
  exact c10_unknown_action oDf tableCalled "b" "allin" none 1
    { pBafterStart with isTurn := true } (by decide) (by decide) (by decide)

/-- C6 counterexample: the claim says the target bet level is the supplied
amount whenever an amount is supplied; but bet with a supplied amount of 0
commits currentBet * 2 = 20 instead of 0 (JavaScript: amount || currentBet*2
treats 0 as absent). -/
theorem c6_counterexample :
    (((playerAction oDf tableA "a" Action.bet (some 0)).1.players.get? 0).map
      Player.bet = some 20) ∧
    (playerAction oDf tableA "a" Action.bet (some 0)).1.currentBet = 20 ∧
    (20 : Int) ≠ 0 := by
  refine ⟨by decide, by decide, by decide⟩

/-- C6 amended: for a bet or raise by the player whose turn it is, the
target level is the supplied amount when it is nonzero, and currentBet * 2
when the amount is absent or zero; the player commits exactly
target - player.bet chips, the player's bet and the table's currentBet
become target, and the pot grows by the same increment — with no
validation of the target against currentBet or the player's stack (the
switch succeeds for every amount). -/
theorem c6_bet_raise_semantics :
    (∀ cb a : Int, a ≠ 0 → betTarget cb (some a) = a) ∧
    (∀ cb : Int, betTarget cb (some 0) = cb * 2 ∧ betTarget cb none = cb * 2) ∧
    (∀ (s : GameState) (i : Nat) (player : Player) (amount : Option Int)
       (act : Action), (act = Action.bet ∨ act = Action.raise) →
       (applySwitch s i player act amount).isSome = true ∧
       ∀ s1, s.players.get? i = some player →
         applySwitch s i player act amount = some s1 →
         ((s1.players.get? i).map (fun p => (p.chips, p.bet))
            = some (player.chips - (betTarget s.currentBet amount - player.bet),
                    betTarget s.currentBet amount)) ∧
         s1.currentBet = betTarget s.currentBet amount ∧
         s1.pot = s.pot + (betTarget s.currentBet amount - player.bet)) := by
  refine ⟨?_, ?_, ?_⟩
  · intro cb a ha
    simp [betTarget, ha]
  · intro cb
    exact ⟨by simp [betTarget], rfl⟩
  · intro s i player amount act hact
    have hsome : ∀ s1, s.players.get? i = some player →
        applySwitch s i player act amount = some s1 →
        ((s1.players.get? i).map (fun p => (p.chips, p.bet))
           = some (player.chips - (betTarget s.currentBet amount - player.bet),
                   betTarget s.currentBet amount)) ∧
        s1.currentBet = betTarget s.currentBet amount ∧
        s1.pot = s.pot + (betTarget s.currentBet amount - player.bet) := by
      intro s1 hg happ
      rcases hact with rfl | rfl <;>
      · cases happ
        refine ⟨?_, rfl, rfl⟩
        rw [show ({ s with
            players := updNth (fun p => { p with chips := p.chips - (betTarget s.currentBet amount - player.bet), bet := betTarget s.currentBet amount }) s.players i,
            currentBet := betTarget s.currentBet amount,
            pot := s.pot + (betTarget s.currentBet amount - player.bet) } : GameState).players
          = updNth (fun p => { p with chips := p.chips - (betTarget s.currentBet amount - player.bet), bet := betTarget s.currentBet amount }) s.players i from rfl]
        rw [get?_updNth_self, hg]
        rfl
    refine ⟨?_, hsome⟩
    rcases hact with rfl | rfl <;> rfl

theorem c6_bet_raise_semantics_witness :
    betTarget 10 (some 7) = 7 ∧ (7 : Int) ≠ 0 ∧
    (betTarget 10 (some 0) = 20 ∧ betTarget 10 none = 20) ∧
    ((applySwitch tableA 0 pAafterStart Action.bet (some 2000)).isSome = true ∧
     ∀ s1, tableA.players.get? 0 = some pAafterStart →
       applySwitch tableA 0 pAafterStart Action.bet (some 2000) = some s1 →
       ((s1.players.get? 0).map (fun p => (p.chips, p.bet))
          = some (pAafterStart.chips - (betTarget tableA.currentBet (some 2000) - pAafterStart.bet),
                  betTarget tableA.currentBet (some 2000))) ∧
       s1.currentBet = betTarget tableA.currentBet (some 2000) ∧
       s1.pot = tableA.pot + (betTarget tableA.currentBet (some 2000) - pAafterStart.bet)) := by
  refine ⟨c6_bet_raise_semantics.1 10 7 (by decide), by decide, c6_bet_raise_semantics.2.1 10, ?_⟩
  exact c6_bet_raise_semantics.2.2 tableA 0 pAafterStart (some 2000) Action.bet (Or.inl rfl)

/-! ### C2: chip arithmetic -/

theorem get?_chipsBet_updNth (f : Player → Player)
    (hf : ∀ p, (f p).chips = p.chips ∧ (f p).bet = p.bet)
    (ps : List Player) (i j : Nat) :
    ((updNth f ps i).get? j).map (fun p => (p.chips, p.bet))
      = (ps.get? j).map (fun p => (p.chips, p.bet)) := by
  by_cases hij : j = i
  · subst hij
    rw [get?_updNth_self]
    cases ps.get? j with
    | none => rfl
    | some p => simp [(hf p).1, (hf p).2]
  · rw [get?_updNth_ne _ _ hij]

theorem sbIndexOf_ne_bbIndexOf {n d : Nat} (h2 : 2 ≤ n) (hd : d < n) :
    sbIndexOf n d ≠ bbIndexOf n d := by
  unfold sbIndexOf bbIndexOf
  by_cases hn2 : n = 2
  · subst hn2
    rw [if_pos rfl, if_pos rfl]
    omega
  · simp only [if_neg hn2]
    intro heq
    have hn3 : 3 ≤ n := by omega
    have h1 : (d + 2) % n = ((d + 1) % n + 1) % n := by
      conv_lhs => rw [show d + 2 = (d + 1) + 1 from rfl]
      rw [Nat.add_mod (d + 1) 1 n, Nat.mod_eq_of_lt (show 1 < n by omega)]
    rw [h1] at heq
    have ha : (d + 1) % n < n := Nat.mod_lt _ (by omega)
    by_cases hlt : (d + 1) % n + 1 < n
    · rw [Nat.mod_eq_of_lt hlt] at heq
      omega
    · have hedge : (d + 1) % n + 1 = n := by omega
      rw [hedge, Nat.mod_self] at heq
      omega

/-- C2 counterexample: chips CAN go negative in a reachable state — after
two joins start the heads-up hand, the small blind raises to 2000 with a
stack of 995 and ends at -1000 chips. -/
def tableNeg : GameState :=
  stepEv tableA (Ev.act ⟨"a", Action.raise, some 2000, oDf⟩)

theorem c2_counterexample :
    Reachable tableNeg ∧
    (tableNeg.players.get? 0).map Player.chips = some (-1000) ∧
    (-1000 : Int) < 0 :=
  ⟨Reachable.step (Ev.act ⟨"a", Action.raise, some 2000, oDf⟩) tableA_reachable,
   by decide, by decide⟩

/-- C2 amended: every chip deduction subtracts exactly the increment
between the new commitment and the player's prior bet — call commits
currentBet - bet, bet/raise commit target - bet, the small and big blind
posts commit 5 and 10 from a freshly reset bet of 0 — but nothing stops
the resulting chips from going below 0 (see the counterexample). -/
theorem c2_exact_increments :
    (∀ (s : GameState) (i : Nat) (player : Player) (amount : Option Int)
       (s1 : GameState), s.players.get? i = some player →
       applySwitch s i player Action.call amount = some s1 →
       ((s1.players.get? i).map (fun p => (p.chips, p.bet))
          = some (player.chips - (s.currentBet - player.bet), s.currentBet)) ∧
       s1.pot = s.pot + (s.currentBet - player.bet)) ∧
    (∀ (s : GameState) (i : Nat) (player : Player) (amount : Option Int)
       (act : Action) (s1 : GameState), (act = Action.bet ∨ act = Action.raise) →
       s.players.get? i = some player →
       applySwitch s i player act amount = some s1 →
       ((s1.players.get? i).map (fun p => (p.chips, p.bet))
          = some (player.chips - (betTarget s.currentBet amount - player.bet),
                  betTarget s.currentBet amount)) ∧
       s1.pot = s.pot + (betTarget s.currentBet amount - player.bet)) ∧
    (∀ (o : Oracle) (s : GameState), 2 ≤ s.players.length →
       (((startNewHand o s).players.get?
           (sbIndexOf s.players.length (s.dealerIndex % s.players.length))).map
             (fun p => (p.chips, p.bet))
         = ((s.players.get?
             (sbIndexOf s.players.length (s.dealerIndex % s.players.length))).map
               (fun p => (p.chips - 5, (5 : Int))))) ∧
       (((startNewHand o s).players.get?
           (bbIndexOf s.players.length (s.dealerIndex % s.players.length))).map
             (fun p => (p.chips, p.bet))
         = ((s.players.get?
             (bbIndexOf s.players.length (s.dealerIndex % s.players.length))).map
               (fun p => (p.chips - 10, (10 : Int)))))) := by
  refine ⟨?_, ?_, ?_⟩
  · intro s i player amount s1 hg happ
    cases happ
    refine ⟨?_, rfl⟩
    show ((updNth (fun p => { p with chips := p.chips - (s.currentBet - player.bet), bet := s.currentBet }) s.players i).get? i).map (fun p => (p.chips, p.bet)) = _
    rw [get?_updNth_self, hg]
    rfl
  · intro s i player amount act s1 hact hg happ
    rcases hact with rfl | rfl <;>
    · cases happ
      refine ⟨?_, rfl⟩
      show ((updNth (fun p => { p with chips := p.chips - (betTarget s.currentBet amount - player.bet), bet := betTarget s.currentBet amount }) s.players i).get? i).map (fun p => (p.chips, p.bet)) = _
      rw [get?_updNth_self, hg]
      rfl
  · intro o s h2
    have hn : 0 < s.players.length := by omega
    have hd : s.dealerIndex % s.players.length < s.players.length := Nat.mod_lt _ hn
    have hne : sbIndexOf s.players.length (s.dealerIndex % s.players.length)
        ≠ bbIndexOf s.players.length (s.dealerIndex % s.players.length) :=
      sbIndexOf_ne_bbIndexOf h2 hd
    unfold startNewHand
    rw [if_neg (by omega)]
    dsimp only
    constructor
    · rw [get?_chipsBet_updNth (fun p => { p with isTurn := true }) (fun _ => ⟨rfl, rfl⟩)]
      rw [get?_updNth_ne _ _ hne]
      rw [get?_updNth_self, get?_handSetup]
      cases s.players.get? (sbIndexOf s.players.length (s.dealerIndex % s.players.length)) <;> rfl
    · rw [get?_chipsBet_updNth (fun p => { p with isTurn := true }) (fun _ => ⟨rfl, rfl⟩)]
      rw [get?_updNth_self]
      rw [get?_updNth_ne _ _ (fun h => hne h.symm)]
      rw [get?_handSetup]
      cases s.players.get? (bbIndexOf s.players.length (s.dealerIndex % s.players.length)) <;> rfl

theorem c2_exact_increments_witness :
    tableA.players.get? 0 = some pAafterStart ∧
    applySwitch tableA 0 pAafterStart Action.call none
      = some ((applySwitch tableA 0 pAafterStart Action.call none).getD tableA) ∧
    ((((applySwitch tableA 0 pAafterStart Action.call none).getD tableA).players.get? 0).map
        (fun p => (p.chips, p.bet))
      = some (pAafterStart.chips - (tableA.currentBet - pAafterStart.bet),
              tableA.currentBet)) ∧
    2 ≤ tableA.players.length ∧
    (((startNewHand oDf tableA).players.get?
        (sbIndexOf tableA.players.length (tableA.dealerIndex % tableA.players.length))).map
          (fun p => (p.chips, p.bet))
      = ((tableA.players.get?
          (sbIndexOf tableA.players.length (tableA.dealerIndex % tableA.players.length))).map
            (fun p => (p.chips - 5, (5 : Int))))) := by
  refine ⟨by decide, by decide, ?_, by decide, ?_⟩
  · exact (c2_exact_increments.1 tableA 0 pAafterStart none _ (by decide) (by decide)).1
  · exact (c2_exact_increments.2.2 oDf tableA (by decide)).1

/-! ### C3: the below-two-players reset -/

/-- The early-win return of removePlayerFromTable: the leaver held the
turn at a table of 2+ players and exactly one active player remains after
force-folding them. -/
def earlyWinPath (s : GameState) (uid : PlayerId) : Bool :=
  match s.players.findIdx? (fun p => p.id == uid) with
  | none => false
  | some j =>
    match s.players.get? j with
    | none => false
    | some player =>
      player.isTurn && decide (1 < s.players.length) &&
        (((forceFold s j).players.filter
          (fun p => !p.folded && !(p.id == uid))).length == 1)

/-- The state of a table that has just been fully reset to waiting. -/
def ResetProps (r : GameState) : Prop :=
  r.phase = Phase.waiting ∧ r.communityCards = [] ∧ r.pot = 0 ∧ r.currentBet = 0 ∧
  ∀ p ∈ r.players,
    p.bet = 0 ∧ p.folded = false ∧ p.cards = none ∧ p.isDealer = false ∧
    p.isSmallBlind = false ∧ p.isBigBlind = false ∧ p.isTurn = false

theorem finishRemoval_reset (t : GameState) (uid : PlayerId) :
    (finishRemoval t uid).players.length < 2 → ResetProps (finishRemoval t uid) := by
  unfold finishRemoval
  rcases hfi : t.players.findIdx? (fun p => p.id == uid) with _ | j <;>
    simp only [hfi] <;>
    split <;>
    split
  case isTrue.isTrue | isTrue.isFalse | isFalse.isTrue | isFalse.isFalse =>
    first
    | (intro _
       refine ⟨rfl, rfl, rfl, rfl, ?_⟩
       intro p hp
       obtain ⟨q, _, rfl⟩ := List.mem_map.mp hp
       exact ⟨rfl, rfl, rfl, rfl, rfl, rfl, rfl⟩)
    | (next h => intro hlen; exact absurd hlen h)
  all_goals
    first
    | (intro _
       refine ⟨rfl, rfl, rfl, rfl, ?_⟩
       intro p hp
       obtain ⟨q, _, rfl⟩ := List.mem_map.mp hp
       exact ⟨rfl, rfl, rfl, rfl, rfl, rfl, rfl⟩)
    | (next h => intro hlen; exact absurd hlen h)

/-- C3 counterexample: in the heads-up table, the turn holder leaves.  The
early-win path settles the hand and returns: one player remains but the
phase is still preflop, the pot still 15, and the remaining player's bet is
still 10 — the reset the claim asserts did not happen. -/
def tableEarly : GameState := stepEv tableA (Ev.leave "a" oDf)

theorem c3_counterexample :
    Reachable tableEarly ∧
    tableEarly.players.length < 2 ∧
    tableEarly.phase = Phase.preflop ∧
    tableEarly.phase ≠ Phase.waiting ∧
    tableEarly.pot = 15 ∧
    (tableEarly.players.get? 0).map Player.bet = some 10 :=
  ⟨Reachable.step (Ev.leave "a" oDf) tableA_reachable,
   by decide, by decide, by decide, by decide, by decide⟩

/-- C3 amended: when a leave/disconnect finds the player and does NOT take
the early-win return, a resulting table of fewer than 2 players is fully
reset: phase waiting, no community cards, pot and currentBet 0, and every
remaining player's per-hand fields cleared.  (On the early-win path the
handler returns right after settling the hand, leaving phase, pot,
currentBet and player fields stale — see the counterexample.) -/
theorem c3_reset_below_two (o : Oracle) (s : GameState) (uid : PlayerId)
    (j : Nat) (player : Player)
    (hj : s.players.findIdx? (fun p => p.id == uid) = some j)
    (hgj : s.players.get? j = some player)
    (hnp : earlyWinPath s uid = false) :
    (removePlayerFromTable o s uid).players.length < 2 →
    ResetProps (removePlayerFromTable o s uid) := by
  by_cases hcond : player.isTurn = true ∧ 1 < s.players.length
  · by_cases h1 : ((forceFold s j).players.filter
        (fun p => !p.folded && !(p.id == uid))).length = 1
    · exfalso
      simp only [earlyWinPath, hj, hgj] at hnp
      simp [hcond.1, hcond.2, h1] at hnp
    · simp only [removePlayerFromTable, hj, hgj, if_pos hcond, h1, if_false]
      exact finishRemoval_reset _ _
  · simp only [removePlayerFromTable, hj, hgj, if_neg hcond]
    exact finishRemoval_reset _ _

theorem c3_reset_below_two_witness :
    tableA.players.findIdx? (fun p => p.id == "b") = some 1 ∧
    tableA.players.get? 1 = some pBafterStart ∧
    earlyWinPath tableA "b" = false ∧
    ((removePlayerFromTable oDf tableA "b").players.length < 2 →
      ResetProps (removePlayerFromTable oDf tableA "b")) :=
  ⟨by decide, by decide, by decide,
   c3_reset_below_two oDf tableA "b" 1 pBafterStart (by decide) (by decide) (by decide)⟩

/-! ### C4: betting-round completion -/

/-- The seat the circular scan from currentPlayerIndex + 1 lands on. -/
def nextActiveIdx (s : GameState) : Nat :=
  scanNonFolded s.players ((s.currentPlayerIndex + 1) % s.players.length)
    s.players.length

/-- The claim's completion condition: every non-folded player has matched
currentBet or is all-in, and the scanned next seat is at or before the
current one. -/
def RoundComplete (s : GameState) : Prop :=
  (∀ p ∈ s.players, p.folded = false → (p.bet = s.currentBet ∨ p.chips = 0)) ∧
  nextActiveIdx s ≤ s.currentPlayerIndex

theorem roundComplete_iff (s : GameState) :
    (((activeFilter s.players).all (fun p => p.bet == s.currentBet || p.chips == 0)
      && decide (nextActiveIdx s ≤ s.currentPlayerIndex)) = true) ↔ RoundComplete s := by
  rw [Bool.and_eq_true, List.all_eq_true, decide_eq_true_iff]
  unfold RoundComplete activeFilter
  constructor
  · rintro ⟨ha, hb⟩
    refine ⟨?_, hb⟩
    intro p hp hf
    have := ha p (List.mem_filter.mpr ⟨hp, by simp [hf]⟩)
    simpa using this
  · rintro ⟨ha, hb⟩
    refine ⟨?_, hb⟩
    intro p hp
    obtain ⟨hmem, hf⟩ := List.mem_filter.mp hp
    have hf2 : p.folded = false := by simpa using hf
    have := ha p hmem hf2
    simpa using this

/-- C4: with at least two active (non-folded) players, moveToNextPlayer
advances the phase exactly when every non-folded player's bet equals
currentBet or that player is all-in AND the circular scan from
currentPlayerIndex + 1 lands at or before currentPlayerIndex; otherwise it
hands the turn to the scanned seat and records it in currentPlayerIndex. -/
theorem c4_round_completion (o : Oracle) (s : GameState)
    (h2 : 2 ≤ (activeFilter s.players).length) :
    (RoundComplete s → moveToNextPlayer o s = advancePhase o s) ∧
    (¬ RoundComplete s → moveToNextPlayer o s =
      { s with
        players := updNth (fun p => { p with isTurn := true }) s.players (nextActiveIdx s),
        currentPlayerIndex := nextActiveIdx s }) := by
  have h1 : ¬(activeFilter s.players).length = 1 := by omega
  have h0 : ¬(activeFilter s.players).length = 0 := by omega
  constructor
  · intro hrc
    have hb := (roundComplete_iff s).mpr hrc
    unfold nextActiveIdx at hb
    simp [moveToNextPlayer, h1, h0, hb]
  · intro hrc
    have hb : (((activeFilter s.players).all
        (fun p => p.bet == s.currentBet || p.chips == 0))
        && decide (nextActiveIdx s ≤ s.currentPlayerIndex)) = false :=
      Bool.eq_false_iff.mpr (fun hb2 => hrc ((roundComplete_iff s).mp hb2))
    unfold nextActiveIdx at hb
    simp [moveToNextPlayer, h1, h0, hb, nextActiveIdx]

theorem c4_round_completion_witness :
    2 ≤ (activeFilter tableA.players).length ∧
    (RoundComplete tableA → moveToNextPlayer oDf tableA = advancePhase oDf tableA) ∧
    (¬ RoundComplete tableA → moveToNextPlayer oDf tableA =
      { tableA with
        players := updNth (fun p => { p with isTurn := true }) tableA.players (nextActiveIdx tableA),
        currentPlayerIndex := nextActiveIdx tableA }) :=
  ⟨by decide, c4_round_completion oDf tableA (by decide)⟩

/-! ### C5: heads-up hand start -/

/-- C5: at a hand start with exactly 2 players the dealer seat is the
small blind with bet 5 and acts first (isTurn), the other seat is the big
blind with bet 10, pot is 15, currentBet 10, phase preflop, and the turn
index points at the dealer seat; and this hand start is exactly what a
second join to a waiting table triggers. -/
theorem c5_heads_up_start (o : Oracle) (s : GameState)
    (h2 : s.players.length = 2) :
    (∀ psb, (startNewHand o s).players.get? (s.dealerIndex % 2) = some psb →
       psb.isDealer = true ∧ psb.isSmallBlind = true ∧ psb.bet = 5 ∧
       psb.isTurn = true) ∧
    (∀ pbb, (startNewHand o s).players.get? ((s.dealerIndex % 2 + 1) % 2) = some pbb →
       pbb.isBigBlind = true ∧ pbb.bet = 10) ∧
    (startNewHand o s).pot = 15 ∧
    (startNewHand o s).currentBet = 10 ∧
    (startNewHand o s).phase = Phase.preflop ∧
    (startNewHand o s).currentPlayerIndex = s.dealerIndex % 2 ∧
    (∀ (t : GameState) (uid name : String), t.players.length = 1 →
       t.phase = Phase.waiting → t.players.all (fun p => !(p.id == uid)) = true →
       joinTable o t uid name
         = startNewHand o { t with players := t.players ++ [freshPlayer t uid name] }) := by
  have htrig : ∀ (t : GameState) (uid name : String), t.players.length = 1 →
      t.phase = Phase.waiting → t.players.all (fun p => !(p.id == uid)) = true →
      joinTable o t uid name
        = startNewHand o { t with players := t.players ++ [freshPlayer t uid name] } := by
    intro t uid name h1 hph hnew
    have hany : t.players.any (fun p => p.id == uid) = false := by
      rw [List.any_eq_false]
      intro p hp
      simpa using List.all_eq_true.mp hnew p hp
    have hfull : ¬ 8 ≤ t.players.length := by omega
    simp only [joinTable, hany, Bool.false_eq_true, if_false, if_neg hfull]
    rw [if_pos]
    constructor
    · show 2 ≤ (t.players ++ [freshPlayer t uid name]).length
      rw [List.length_append]
      simp [h1]
    · exact hph
  rcases s with ⟨tid, ps, cc, pot, cb, ph, di, cpi, tt, w⟩
  dsimp only at h2 ⊢
  rcases ps with _ | ⟨p0, ps⟩
  · simp at h2
  rcases ps with _ | ⟨p1, ps⟩
  · simp at h2
  rcases ps with _ | ⟨p2, ps⟩
  all_goals simp only [List.length_cons, List.length_nil] at h2
  · have hd : di % 2 = 0 ∨ di % 2 = 1 := by omega
    rcases hd with hd | hd <;>
    · refine ⟨?_, ?_, ?_, ?_, ?_, ?_, htrig⟩ <;>
        simp [startNewHand, sbIndexOf, bbIndexOf, firstToActOf, handSetup,
          mapWithIdx, updNth, hd]
  · omega

theorem c5_heads_up_start_witness :
    tableA.players.length = 2 ∧
    ((∀ psb, (startNewHand oDf tableA).players.get? (tableA.dealerIndex % 2) = some psb →
        psb.isDealer = true ∧ psb.isSmallBlind = true ∧ psb.bet = 5 ∧
        psb.isTurn = true) ∧
     (∀ pbb, (startNewHand oDf tableA).players.get? ((tableA.dealerIndex % 2 + 1) % 2) = some pbb →
        pbb.isBigBlind = true ∧ pbb.bet = 10) ∧
     (startNewHand oDf tableA).pot = 15 ∧
     (startNewHand oDf tableA).currentBet = 10 ∧
     (startNewHand oDf tableA).phase = Phase.preflop ∧
     (startNewHand oDf tableA).currentPlayerIndex = tableA.dealerIndex % 2 ∧
     (∀ (t : GameState) (uid name : String), t.players.length = 1 →
        t.phase = Phase.waiting → t.players.all (fun p => !(p.id == uid)) = true →
        joinTable oDf t uid name
          = startNewHand oDf { t with players := t.players ++ [freshPlayer t uid name] })) :=
  ⟨by decide, c5_heads_up_start oDf tableA (by decide)⟩

/-! ### C1 and C8 -/

/-- C1: money conservation.  Starting a hand from any table of 2+ players
and running any trace of player actions during which no settlement has yet
happened, the pot always equals the chips deducted from the players since
the hand started (pot + current stacks = stacks before the hand); and if
the trace ends in a settlement, the amount credited to the winner equals
the pot and the stacks total returns to its pre-hand value. -/
theorem c1_money_conservation (pre : GameState) (o : Oracle) (evs : List ActEv)
    (h2 : 2 ≤ pre.players.length) (hw : pre.winner = none)
    (hrun : winnerFreeRun (startNewHand o pre) evs) :
    ((applyActs (startNewHand o pre) evs).winner = none →
      (applyActs (startNewHand o pre) evs).pot
        + sumChips (applyActs (startNewHand o pre) evs).players
        = sumChips pre.players) ∧
    (∀ w, (applyActs (startNewHand o pre) evs).winner = some w →
      w.amount = (applyActs (startNewHand o pre) evs).pot ∧
      sumChips (applyActs (startNewHand o pre) evs).players
        = sumChips pre.players) := by
  have hw0 : (startNewHand o pre).winner = none := by
    rw [startNewHand_winner]
    exact hw
  exact applyActs_money evs (startNewHand o pre) (sumChips pre.players) hw0
    (startNewHand_money o pre h2) hrun

theorem c1_money_conservation_witness :
    2 ≤ tableA.players.length ∧ tableA.winner = none ∧
    winnerFreeRun (startNewHand oDf tableA) [⟨"a", Action.call, none, oDf⟩] ∧
    (((applyActs (startNewHand oDf tableA) [⟨"a", Action.call, none, oDf⟩]).winner = none →
       (applyActs (startNewHand oDf tableA) [⟨"a", Action.call, none, oDf⟩]).pot
         + sumChips (applyActs (startNewHand oDf tableA) [⟨"a", Action.call, none, oDf⟩]).players
         = sumChips tableA.players) ∧
     (∀ w, (applyActs (startNewHand oDf tableA) [⟨"a", Action.call, none, oDf⟩]).winner = some w →
       w.amount = (applyActs (startNewHand oDf tableA) [⟨"a", Action.call, none, oDf⟩]).pot ∧
       sumChips (applyActs (startNewHand oDf tableA) [⟨"a", Action.call, none, oDf⟩]).players
         = sumChips tableA.players)) :=
  ⟨by decide, by decide, ⟨by decide, trivial⟩,
   c1_money_conservation tableA oDf [⟨"a", Action.call, none, oDf⟩]
     (by decide) (by decide) ⟨by decide, trivial⟩⟩

/-- C8: in every reachable table state at most one player holds the turn,
and a player holds it only while the phase is neither waiting nor
showdown; reachability quantifies over all engine operations (join, leave,
action, deferred post-hand reset), so each of them preserves the
invariant. -/
theorem c8_turn_invariant :
    ∀ s : GameState, Reachable s →
      (s.players.filter Player.isTurn).length ≤ 1 ∧
      (∀ p ∈ s.players, p.isTurn = true →
        s.phase ≠ Phase.waiting ∧ s.phase ≠ Phase.showdown) := by
  intro s h
  have hInv := reachable_tableInv s h
  refine ⟨hInv.1, ?_⟩
  intro p hp ht
  constructor
  · intro hph
    have h0 := hInv.2.1 (Or.inl hph)
    have h3 := (turnCount_eq_zero_iff s.players).mp h0 p hp
    rw [ht] at h3
    cases h3
  · intro hph
    have h0 := hInv.2.1 (Or.inr hph)
    have h3 := (turnCount_eq_zero_iff s.players).mp h0 p hp
    rw [ht] at h3
    cases h3

theorem c8_turn_invariant_witness :
    Reachable tableA ∧
    ((tableA.players.filter Player.isTurn).length ≤ 1 ∧
     (∀ p ∈ tableA.players, p.isTurn = true →
       tableA.phase ≠ Phase.waiting ∧ tableA.phase ≠ Phase.showdown)) :=
  ⟨tableA_reachable, c8_turn_invariant tableA tableA_reachable⟩

end Poker
